import Mathlib

/-!
Verification of the bento-browse data-normalization and ranking core.

The definitions below are a shallow embedding of the JavaScript source:
  * `src/src/App.jsx` — `normalize`, `isLikelySku`, `getRelevancy`, `filtered`
  * `src/src/CsvImport.jsx` — `PRODUCT_FIELDS`, `FIELD_ALIASES`, `mapFields`,
    `cleanRows`, `handleFile`'s empty-file branch, and `ProductCard`'s
    `relevant` filter
  * the unnamed `ProductDetail` module — `getRelevantProducts`
Product records are modelled as association lists from field name to string
value (`result[canon] = ...` builds exactly such a map); JS object identity
inside a product list is modelled by tagging each record with its position.
-/

namespace BentoBrowse

/-! ### JavaScript string primitives -/

/-- `String.prototype.toLowerCase` restricted to the characters this
application handles: ASCII letters plus the Swedish letters that occur in
queries and field values. Other characters are unchanged. -/
def jsToLower (c : Char) : Char :=
  if 'A' ≤ c ∧ c ≤ 'Z' then Char.ofNat (c.toNat + 32)
  else if c = 'Å' then 'å'
  else if c = 'Ä' then 'ä'
  else if c = 'Ö' then 'ö'
  else if c = 'É' then 'é'
  else c

/-- Canonical decomposition (`String.prototype.normalize("NFD")`) for the
characters this application handles: each precomposed letter splits into its
base letter followed by a combining mark; characters without an entry stand
for themselves. -/
def nfdDecompose (c : Char) : List Char :=
  if c = 'å' then ['a', Char.ofNat 0x30A]
  else if c = 'ä' then ['a', Char.ofNat 0x308]
  else if c = 'ö' then ['o', Char.ofNat 0x308]
  else if c = 'é' then ['e', Char.ofNat 0x301]
  else [c]

/-- The combining-mark range `[̀-ͯ]` stripped by `normalize`. -/
def isCombiningMark (c : Char) : Bool :=
  decide (0x300 ≤ c.toNat) && decide (c.toNat ≤ 0x36F)

/-- A JS word character: `\w` = `[A-Za-z0-9_]`. -/
def isWordChar (c : Char) : Bool :=
  (decide ('a' ≤ c) && decide (c ≤ 'z')) ||
  (decide ('A' ≤ c) && decide (c ≤ 'Z')) ||
  (decide ('0' ≤ c) && decide (c ≤ '9')) ||
  c == '_'

/-- An ASCII digit, JS `\d`. -/
def isDigitChar (c : Char) : Bool :=
  decide ('0' ≤ c) && decide (c ≤ '9')

/-- Collapse runs of spaces to one space (`replace(/\s+/g, " ")` after every
whitespace character has already become a space). -/
def collapseSpaces : List Char → List Char
  | [] => []
  | [c] => [c]
  | c :: d :: rest =>
    if c = ' ' ∧ d = ' ' then collapseSpaces (d :: rest)
    else c :: collapseSpaces (d :: rest)

/-- Drop the given characters from both ends of a character list. -/
def trimEnds (p : Char → Bool) (l : List Char) : List Char :=
  ((l.dropWhile p).reverse.dropWhile p).reverse

/-- The JS whitespace class `\s` restricted to the characters this
application handles. -/
def isJsWhitespace (c : Char) : Bool :=
  c == ' ' || c == '\t' || c == '\n' || c == '\r' ||
  c.toNat == 0x0B || c.toNat == 0x0C || c.toNat == 0xA0 ||
  c.toNat == 0x2028 || c.toNat == 0x2029 || c.toNat == 0xFEFF

/-- `App.jsx` `normalize`: lower-case, NFD-decompose and drop combining
marks, replace every non-word character by a space, collapse whitespace,
trim. -/
def normalize (s : String) : String :=
  String.mk (trimEnds (fun c => c == ' ')
    (collapseSpaces
      ((((s.data.map jsToLower).map nfdDecompose).flatten.filter
          (fun c => !isCombiningMark c)).map
        (fun c => if isWordChar c then c else ' '))))

/-- Whether `pat` is a prefix of `hay`, character by character. -/
def charsIsPrefixOf : List Char → List Char → Bool
  | [], _ => true
  | _ :: _, [] => false
  | p :: ps, h :: hs => p == h && charsIsPrefixOf ps hs

/-- Whether `pat` occurs contiguously inside `hay`. -/
def charsContains (pat : List Char) : List Char → Bool
  | [] => pat.isEmpty
  | h :: hs => charsIsPrefixOf pat (h :: hs) || charsContains pat hs

/-- `String.prototype.includes`: `strIncludes hay pat` is true when `pat`
occurs as a contiguous substring of `hay`. -/
def strIncludes (hay pat : String) : Bool :=
  charsContains pat.data hay.data

/-- `String.prototype.trim`. -/
def jsTrim (s : String) : String :=
  String.mk (trimEnds isJsWhitespace s.data)

/-- Map `toLowerCase` over a whole string. -/
def jsLowerStr (s : String) : String :=
  String.mk (s.data.map jsToLower)

/-- The value of a run of decimal digits, `none` when there is none. -/
def digitsValue (cs : List Char) : Option Nat :=
  let ds := cs.takeWhile isDigitChar
  if ds = [] then none
  else some (ds.foldl (fun a c => a * 10 + (c.toNat - 48)) 0)

/-- JS `parseInt(s, 10)`: skip leading whitespace, read an optional sign and
then the longest digit prefix; `none` models `NaN`. -/
def jsParseInt (s : String) : Option Int :=
  match s.data.dropWhile isJsWhitespace with
  | '-' :: rest => (digitsValue rest).map (fun n => -(n : Int))
  | '+' :: rest => (digitsValue rest).map (fun n => (n : Int))
  | rest => (digitsValue rest).map (fun n => (n : Int))

/-! ### Product records -/

/-- A product record: a map from field name to string value, as built by
`cleanRows` (`result[canon] = ...`). -/
abbrev Product := List (String × String)

/-- A raw spreadsheet row as decoded by the collaborator. -/
abbrev Row := List (String × String)

/-- Field access `p["k"]` followed by the `|| ""` / `String(x || "")`
defaulting every consumer applies: a missing key reads as the empty
string. -/
def getField : Product → String → String
  | [], _ => ""
  | kv :: rest, k => if kv.1 = k then kv.2 else getField rest k

/-- `row[header]` with a missing key reading as the empty string (the
decoder is invoked with `defval: ""`). -/
def rowGet : Row → String → String
  | [], _ => ""
  | kv :: rest, k => if kv.1 = k then kv.2 else rowGet rest k

/-! ### Schema and alias table (`CsvImport.jsx`) -/

/-- The canonical Table.se product fields, in declared (export) order. -/
def PRODUCT_FIELDS : List String := [
  "Namn",
  "Artikelnummer",
  "Färg",
  "Material",
  "Serie",
  "Pris exkl. moms (värde)",
  "Pris exkl. moms (enhet)",
  "Pris inkl. moms (värde)",
  "Pris inkl. moms (enhet)",
  "Längd (värde)", "Längd (enhet)",
  "Bredd (värde)", "Bredd (enhet)",
  "Höjd (värde)", "Höjd (enhet)",
  "Djup (värde)", "Djup (enhet)",
  "Diameter (värde)", "Diameter (enhet)",
  "Kapacitet (värde)", "Kapacitet (enhet)",
  "Volym (värde)", "Volym (enhet)",
  "Vikt (värde)", "Vikt (enhet)",
  "Data (text)",
  "Kategori (parent)",
  "Kategori (sub)",
  "Produktbild-URL",
  "Produkt-URL",
  "Beskrivning",
  "Extra data"]

/-- `field.replace(/[\s\-\(\)]/g, "")`: drop whitespace, hyphens and
parentheses. -/
def stripAlias (s : String) : String :=
  String.mk (s.data.filter
    (fun c => !(isJsWhitespace c || c == '-' || c == '(' || c == ')')))

/-- The first alias key of a field: `field.toLowerCase()`. -/
def aliasKeyLower (f : String) : String := jsLowerStr f

/-- The second alias key of a field:
`field.replace(/[\s\-\(\)]/g, "").toLowerCase()`. -/
def aliasKeyStripped (f : String) : String := jsLowerStr (stripAlias f)

/-- The two alias keys a field registers. -/
def aliasKeys (f : String) : List String := [aliasKeyLower f, aliasKeyStripped f]

/-- JS object assignment `obj[k] = v` on a string-keyed object modelled as an
association list with unique keys: replace the binding in place, or append a
new one. -/
def objSet : List (String × String) → String → String → List (String × String)
  | [], k, v => [(k, v)]
  | kv :: rest, k, v =>
    if kv.1 = k then (k, v) :: rest else kv :: objSet rest k v

/-- JS object read `obj[k]`: `none` models `undefined`. -/
def objGet : List (String × String) → String → Option String
  | [], _ => none
  | kv :: rest, k => if kv.1 = k then some kv.2 else objGet rest k

/-- The `FIELD_ALIASES` reduce: for every field register both alias keys,
assignments overwriting any earlier binding of the same key. -/
def buildAliases (fields : List String) : List (String × String) :=
  fields.foldl
    (fun acc f => objSet (objSet acc (aliasKeyLower f) f) (aliasKeyStripped f) f)
    []

/-- `FIELD_ALIASES` over the fixed schema. -/
def FIELD_ALIASES : List (String × String) := buildAliases PRODUCT_FIELDS

/-- `if (obj[k]) ...`: a read that also passes JS truthiness (the empty
string is falsy). -/
def objGetTruthy (m : List (String × String)) (k : String) : Option String :=
  match objGet m k with
  | some v => if v = "" then none else some v
  | none => none

/-- `mapFields`' per-header lookup: trim and lower the header, try the exact
alias key and then the stripped alias key, and pass an unmapped header
through verbatim. -/
def mapField (f : String) : String :=
  let norm := jsLowerStr (jsTrim f)
  match objGetTruthy FIELD_ALIASES norm with
  | some c => c
  | none =>
    match objGetTruthy FIELD_ALIASES (stripAlias norm) with
    | some c => c
    | none => f

/-- `mapFields(uploadedFields)` as an ordered header→field map. -/
def mapFields (uploadedFields : List String) : List (String × String) :=
  uploadedFields.map (fun f => (f, mapField f))

/-! ### Import pipeline (`CsvImport.jsx` `handleFile` / `cleanRows`) -/

/-- The value a cleaned record gives one canonical field:
`Object.keys(fieldMap).find(uf => fieldMap[uf] === canon)` then
`result[canon] = uploaded ? row[uploaded] : ""` (note the truthiness test on
the found header string). -/
def rowValueFor (fieldMap : List (String × String)) (row : Row) (canon : String) :
    String :=
  match fieldMap.find? (fun x => x.2 = canon) with
  | some x => if x.1 = "" then "" else rowGet row x.1
  | none => ""

/-- One row of `cleanRows`: a record with exactly the canonical fields as
keys, in declared order. -/
def cleanRow (fieldMap : List (String × String)) (row : Row) : Product :=
  PRODUCT_FIELDS.map (fun canon => (canon, rowValueFor fieldMap row canon))

/-- The header set is taken from the first row. -/
def uploadedFieldsOf : List Row → List String
  | [] => []
  | r :: _ => r.map Prod.fst

/-- `rows.map(...)` of `handleFile`: map every row through the shared
header→field map. -/
def cleanRows (rows : List Row) : List Product :=
  rows.map (cleanRow (mapFields (uploadedFieldsOf rows)))

/-- The import's success/failure shape: `handleFile` throws
`"Filen innehåller inga rader."` on zero rows (caught before `onData` is
reached), otherwise hands `cleanRows` to the caller. -/
def importRows (rows : List Row) : Except String (List Product) :=
  if rows = [] then Except.error "Filen innehåller inga rader."
  else Except.ok (cleanRows rows)

/-- The caller's product list after an upload: `setProducts` runs only when
`onData` is reached, so a failed import leaves the prior list in place. -/
def applyImport (prior : List Product) (rows : List Row) : List Product :=
  match importRows rows with
  | Except.error _ => prior
  | Except.ok recs => recs

/-! ### Search and ranking engine (`App.jsx`) -/

/-- The query-mode tag: `"sku"` or `"name"`. -/
inductive Mode where
  | sku : Mode
  | name : Mode
deriving DecidableEq

/-- `isLikelySku(q)`: `/\d/.test(q) || (/^[\w\-]+$/.test(q) && q.length < 10)`,
applied to the raw query string. -/
def isLikelySku (q : String) : Bool :=
  q.data.any isDigitChar ||
    (!q.data.isEmpty && q.data.all (fun c => isWordChar c || c == '-') &&
      decide (q.length < 10))

/-- The mode `filtered` chooses for a query. -/
def modeOf (q : String) : Mode :=
  if isLikelySku q then Mode.sku else Mode.name

/-- `getRelevancy(p, q, mode)`: test containment of the (already
normalized) token in the four normalized fields in the mode's priority
order and return the first match's score, `0` when nothing matches. -/
def getRelevancy (p : Product) (q : String) (mode : Mode) : Nat :=
  let name := normalize (getField p "Namn")
  let sku := normalize (getField p "Artikelnummer")
  let parent := normalize (getField p "Kategori (parent)")
  let sub := normalize (getField p "Kategori (sub)")
  match mode with
  | Mode.sku =>
    if strIncludes sku q then 100
    else if strIncludes sub q then 90
    else if strIncludes parent q then 80
    else if strIncludes name q then 70
    else 0
  | Mode.name =>
    if strIncludes sub q then 100
    else if strIncludes parent q then 90
    else if strIncludes sku q then 80
    else if strIncludes name q then 70
    else 0

/-- The spec's priority table: field/score pairs in priority order for each
mode. -/
def priorityTable (mode : Mode) : List (String × Nat) :=
  match mode with
  | Mode.sku =>
    [("Artikelnummer", 100), ("Kategori (sub)", 90), ("Kategori (parent)", 80),
      ("Namn", 70)]
  | Mode.name =>
    [("Kategori (sub)", 100), ("Kategori (parent)", 90), ("Artikelnummer", 80),
      ("Namn", 70)]

/-- Per-token scoring as the spec words it: the first matching field's score
from the priority table, `0` when no field matches. Stated from the spec to
be compared with `getRelevancy`. -/
def relevancySpec (p : Product) (q : String) (mode : Mode) : Nat :=
  match (priorityTable mode).find?
      (fun e => strIncludes (normalize (getField p e.1)) q) with
  | some e => e.2
  | none => 0

/-- `String.prototype.split(" ")` on a character list: cut at every single
space (the empty string yields one empty piece, like JS). -/
def splitOnSpaces : List Char → List Char → List String
  | [], acc => [String.mk acc.reverse]
  | c :: rest, acc =>
    if c = ' ' then String.mk acc.reverse :: splitOnSpaces rest []
    else splitOnSpaces rest (c :: acc)

/-- `normalize(search).split(" ").filter(Boolean)`. -/
def tokensOf (q : String) : List String :=
  (splitOnSpaces (normalize q).data []).filter (fun t => t ≠ "")

/-- One iteration of `filtered`'s token loop: add a positive score to the
total, or clear `allMatched`. -/
def scoreStep (mode : Mode) (p : Product) (acc : Nat × Bool) (q : String) :
    Nat × Bool :=
  let score := getRelevancy p q mode
  if 0 < score then (acc.1 + score, acc.2) else (acc.1, false)

/-- The `_score` annotation `filtered` computes for one record:
`allMatched ? totalScore : 0`. -/
def scoreRow (mode : Mode) (p : Product) (qWords : List String) : Nat :=
  let r := qWords.foldl (scoreStep mode p) (0, true)
  if r.2 then r.1 else 0

/-- The order the stable JS sort `(a, b) => b._score - a._score` produces:
`a` may stay before `b` exactly when `b`'s score is not larger. -/
def scoreGE (a b : Product × Nat) : Prop := b.2 ≤ a.2

instance : DecidableRel scoreGE :=
  fun a b => inferInstanceAs (Decidable (b.2 ≤ a.2))

instance : IsTotal (Product × Nat) scoreGE :=
  ⟨fun a b => (Nat.le_total b.2 a.2).elim Or.inl Or.inr⟩

instance : IsTrans (Product × Nat) scoreGE :=
  ⟨fun _ _ _ hab hbc => Nat.le_trans hbc hab⟩

/-- The scored pipeline of `filtered` for a non-empty query: annotate every
record with its `_score`, keep the positive ones, sort by descending score
(stable). -/
def searchScored (products : List Product) (search : String) :
    List (Product × Nat) :=
  List.insertionSort scoreGE
    ((products.map (fun p => (p, scoreRow (modeOf search) p (tokensOf search)))).filter
      (fun x => decide (0 < x.2)))

/-- `filtered`: the record sequence the search shows — all records for the
empty query, otherwise the scored pipeline's records. -/
def filteredSearch (products : List Product) (search : String) : List Product :=
  if search = "" then products
  else (searchScored products search).map Prod.fst

/-! ### Recommendation engine (unnamed `ProductDetail` module) -/

/-- `Number.MAX_SAFE_INTEGER`. -/
def MAX_SAFE_INTEGER : Nat := 9007199254740991

/-- The category score of a candidate against the focal record: `2` when
both categories are (string-)equal, `1` when only the parent category is,
`0` otherwise. -/
def categoryScore (cur p : Product) : Nat :=
  if getField p "Kategori (parent)" = getField cur "Kategori (parent)" ∧
      getField p "Kategori (sub)" = getField cur "Kategori (sub)" then 2
  else if getField p "Kategori (parent)" = getField cur "Kategori (parent)" then 1
  else 0

/-- The numeric identifier distance: absolute difference when both
identifiers parse with `parseInt`, else `Number.MAX_SAFE_INTEGER`. -/
def skuDistance (cur p : Product) : Nat :=
  match jsParseInt (getField cur "Artikelnummer"),
      jsParseInt (getField p "Artikelnummer") with
  | some a, some b => (a - b).natAbs
  | _, _ => MAX_SAFE_INTEGER

/-- A scored candidate: the (position, record) pair together with its
category score and identifier distance. -/
abbrev Cand := (Nat × Product) × Nat × Nat

/-- The order the stable JS sort of `getRelevantProducts` produces:
descending category score, then ascending identifier distance. -/
def candLE (a b : Cand) : Prop :=
  b.2.1 < a.2.1 ∨ (a.2.1 = b.2.1 ∧ a.2.2 ≤ b.2.2)

instance : DecidableRel candLE :=
  fun a b =>
    inferInstanceAs (Decidable (b.2.1 < a.2.1 ∨ (a.2.1 = b.2.1 ∧ a.2.2 ≤ b.2.2)))

instance : IsTotal Cand candLE := ⟨fun a b => by unfold candLE; omega⟩

instance : IsTrans Cand candLE :=
  ⟨fun a b c hab hbc => by unfold candLE at hab hbc ⊢; omega⟩

/-- The scored, sorted candidate list of `getRelevantProducts`: every record
other than the focal one (`p !== currentProduct`, modelled by position `i`)
with a non-blank identifier, scored and stably sorted. -/
def getRelevantScored (cur : Product) (i : Nat) (all : List Product) :
    List Cand :=
  List.insertionSort candLE
    (((all.enum.filter
        (fun jp => decide (jp.1 ≠ i) &&
          decide (getField jp.2 "Artikelnummer" ≠ ""))).map
      (fun jp => (jp, categoryScore cur jp.2, skuDistance cur jp.2))))

/-- `getRelevantProducts(currentProduct, allProducts, maxResults)` (the
source defaults `maxResults` to 6): sort, truncate, and project the
records. -/
def getRelevantProducts (cur : Product) (i : Nat) (all : List Product)
    (maxResults : Nat) : List Product :=
  ((getRelevantScored cur i all).take maxResults).map (fun c => c.1.2)

/-- The category score as the claim words it, with normalized equality in
place of the code's raw string equality. Stated from the claim to be
compared with `categoryScore`. -/
def normCategoryScore (cur p : Product) : Nat :=
  if normalize (getField p "Kategori (parent)") =
        normalize (getField cur "Kategori (parent)") ∧
      normalize (getField p "Kategori (sub)") =
        normalize (getField cur "Kategori (sub)") then 2
  else if normalize (getField p "Kategori (parent)") =
      normalize (getField cur "Kategori (parent)") then 1
  else 0

/-- The `relevant` filter of `CsvImport.jsx`'s `ProductCard`: at most six
other records sharing the focal record's three-character identifier prefix
or its sub-category. -/
def productCardRelevant (product : Product) (allProducts : List Product) :
    List Product :=
  let sku := getField product "Artikelnummer"
  let subcat := getField product "Kategori (sub)"
  (allProducts.filter (fun p =>
    let psku := getField p "Artikelnummer"
    decide (psku ≠ "") && decide (psku ≠ sku) &&
      ((decide (sku ≠ "") && psku.startsWith (sku.take 3)) ||
        (decide (subcat ≠ "") &&
          decide (getField p "Kategori (sub)" = subcat))))).take 6

/-! ### Helper lemmas -/

/-- `find?` returns the head of the filtered list. -/
theorem find?_eq_head?_filter {α : Type} (p : α → Bool) (l : List α) :
    l.find? p = (l.filter p).head? := by
  induction l with
  | nil => rfl
  | cons a as ih =>
    by_cases h : p a
    · rw [List.find?_cons_of_pos _ h, List.filter_cons_of_pos h]; rfl
    · rw [List.find?_cons_of_neg _ h, List.filter_cons_of_neg h, ih]

/-- The token loop's accumulator: the running total adds exactly the
positive per-token scores, and `allMatched` survives exactly when every
token scores positively. -/
theorem scoreStep_foldl (mode : Mode) (p : Product) (ws : List String) :
    ∀ (n : Nat) (b : Bool),
      ws.foldl (scoreStep mode p) (n, b) =
        (n + ((ws.filter (fun t => decide (0 < getRelevancy p t mode))).map
              (fun t => getRelevancy p t mode)).sum,
          b && ws.all (fun t => decide (0 < getRelevancy p t mode))) := by
  induction ws with
  | nil => intro n b; simp
  | cons t ts ih =>
    intro n b
    by_cases h : 0 < getRelevancy p t mode
    · simp [List.foldl_cons, scoreStep, if_pos h, ih, List.filter_cons,
        List.all_cons, decide_eq_true h, Nat.add_assoc]
    · simp [List.foldl_cons, scoreStep, if_neg h, ih, List.filter_cons,
        List.all_cons, decide_eq_false h]

/-- `_score` in closed form: the sum of the per-token scores when every
token matches, `0` otherwise. -/
theorem scoreRow_eq (mode : Mode) (p : Product) (ws : List String) :
    scoreRow mode p ws =
      if ws.all (fun t => decide (0 < getRelevancy p t mode)) then
        (ws.map (fun t => getRelevancy p t mode)).sum
      else 0 := by
  unfold scoreRow
  rw [scoreStep_foldl mode p ws 0 true]
  by_cases h : ws.all (fun t => decide (0 < getRelevancy p t mode))
  · have hfil : ws.filter (fun t => decide (0 < getRelevancy p t mode)) = ws :=
      List.filter_eq_self.mpr (by
        intro a ha
        exact (List.all_eq_true.mp h) a ha)
    simp [h, hfil]
  · simp [h]

/-- Membership in the scored pipeline, unfolded. -/
theorem mem_searchScored {ps : List Product} {q : String} {p : Product}
    {s : Nat} :
    (p, s) ∈ searchScored ps q ↔
      p ∈ ps ∧ s = scoreRow (modeOf q) p (tokensOf q) ∧ 0 < s := by
  unfold searchScored
  rw [List.mem_insertionSort, List.mem_filter, List.mem_map]
  constructor
  · rintro ⟨⟨a, ha, heq⟩, hpos⟩
    injection heq with h1 h2
    subst h1
    exact ⟨ha, h2.symm, of_decide_eq_true hpos⟩
  · rintro ⟨hp, hs, hpos⟩
    exact ⟨⟨p, hp, by rw [hs]⟩, decide_eq_true hpos⟩

/-- With at least one token, a positive `_score` is the same as every token
scoring positively, and then the `_score` is the sum of the per-token
scores. -/
theorem scoreRow_pos_iff (mode : Mode) (p : Product) (ws : List String)
    (hne : ws ≠ []) :
    (0 < scoreRow mode p ws ↔ ∀ t ∈ ws, 0 < getRelevancy p t mode) ∧
      ((∀ t ∈ ws, 0 < getRelevancy p t mode) →
        scoreRow mode p ws = (ws.map (fun t => getRelevancy p t mode)).sum) := by
  rw [scoreRow_eq]
  by_cases h : ws.all (fun t => decide (0 < getRelevancy p t mode))
  · have hall : ∀ t ∈ ws, 0 < getRelevancy p t mode := by
      intro t ht; exact of_decide_eq_true ((List.all_eq_true.mp h) t ht)
    refine ⟨⟨fun _ => hall, fun _ => ?_⟩, fun _ => by rw [if_pos h]⟩
    rw [if_pos h]
    refine List.sum_pos _ ?_ ?_
    · intro x hx
      obtain ⟨t, ht, rfl⟩ := List.mem_map.mp hx
      exact hall t ht
    · exact fun hmap => hne (List.map_eq_nil_iff.mp hmap)
  · have hnall : ¬ ∀ t ∈ ws, 0 < getRelevancy p t mode := by
      intro hall
      exact h (List.all_eq_true.mpr fun t ht => decide_eq_true (hall t ht))
    exact ⟨⟨fun hpos => absurd (if_neg h ▸ hpos) (lt_irrefl 0), fun hall =>
      absurd hall hnall⟩, fun hall => absurd hall hnall⟩

/-- A non-empty token list forces a non-empty query. -/
theorem tokensOf_ne_nil_of_ne {q : String} (h : tokensOf q ≠ []) : q ≠ "" := by
  intro hq
  subst hq
  exact h (by decide)

/-! ### Claim theorems: search engine -/

/-- C1: with at least one token, a record is in the scored search result
exactly when every token scores positively against it, its annotated total
is then the sum of the per-token scores, and the displayed result holds
exactly those records — a record with any zero-scoring token is excluded
entirely. -/
theorem search_and_semantics (ps : List Product) (q : String)
    (h : tokensOf q ≠ []) (p : Product) (s : Nat) :
    ((p, s) ∈ searchScored ps q ↔
      p ∈ ps ∧ (∀ t ∈ tokensOf q, 0 < getRelevancy p t (modeOf q)) ∧
        s = ((tokensOf q).map (fun t => getRelevancy p t (modeOf q))).sum) ∧
    (p ∈ filteredSearch ps q ↔
      p ∈ ps ∧ ∀ t ∈ tokensOf q, 0 < getRelevancy p t (modeOf q)) := by
  have hgen : ∀ (a : Product) (n : Nat),
      (a, n) ∈ searchScored ps q ↔
        a ∈ ps ∧ (∀ t ∈ tokensOf q, 0 < getRelevancy a t (modeOf q)) ∧
          n = ((tokensOf q).map (fun t => getRelevancy a t (modeOf q))).sum := by
    intro a n
    obtain ⟨hiff, hsum⟩ := scoreRow_pos_iff (modeOf q) a (tokensOf q) h
    rw [mem_searchScored]
    constructor
    · rintro ⟨hp, rfl, hpos⟩
      have hall := hiff.mp hpos
      exact ⟨hp, hall, hsum hall⟩
    · rintro ⟨hp, hall, rfl⟩
      refine ⟨hp, (hsum hall).symm, ?_⟩
      rw [← hsum hall]
      exact hiff.mpr hall
  refine ⟨hgen p s, ?_⟩
  unfold filteredSearch
  rw [if_neg (tokensOf_ne_nil_of_ne h), List.mem_map]
  constructor
  · rintro ⟨⟨x1, x2⟩, hmem, rfl⟩
    obtain ⟨ha, hall, _⟩ := (hgen x1 x2).mp hmem
    exact ⟨ha, hall⟩
  · rintro ⟨hp, hall⟩
    exact ⟨(p, ((tokensOf q).map (fun t => getRelevancy p t (modeOf q))).sum),
      (hgen _ _).mpr ⟨hp, hall, rfl⟩, rfl⟩

/-- A sample record used to instantiate the search theorems. -/
def wProduct : Product :=
  [("Namn", "Blå stol"), ("Artikelnummer", "123"),
    ("Kategori (parent)", "Möbler"), ("Kategori (sub)", "Stolar")]

/-- C1 witness: the two-token query `"blå stol"` against a record matching
both tokens, total score `170 = 70 + 100`. -/
theorem search_and_semantics_witness :
    tokensOf "blå stol" ≠ [] ∧
    (((wProduct, 170) ∈ searchScored [wProduct] "blå stol" ↔
        wProduct ∈ [wProduct] ∧
          (∀ t ∈ tokensOf "blå stol",
            0 < getRelevancy wProduct t (modeOf "blå stol")) ∧
          170 = ((tokensOf "blå stol").map
            (fun t => getRelevancy wProduct t (modeOf "blå stol"))).sum) ∧
      (wProduct ∈ filteredSearch [wProduct] "blå stol" ↔
        wProduct ∈ [wProduct] ∧
          ∀ t ∈ tokensOf "blå stol",
            0 < getRelevancy wProduct t (modeOf "blå stol"))) :=
  ⟨by decide, search_and_semantics [wProduct] "blå stol" (by decide) wProduct 170⟩

/-- C2: the per-token score of `getRelevancy` is the first matching field's
score from the mode's fixed priority table (identifier-mode
100/90/80/70 over identifier, sub, parent, name; name-mode over sub,
parent, identifier, name), zero when no field contains the token; scores
are never summed across fields. -/
theorem relevancy_first_matching_field (p : Product) (q : String) (mode : Mode) :
    getRelevancy p q mode = relevancySpec p q mode := by
  cases mode
  all_goals
    by_cases h1 : strIncludes (normalize (getField p "Artikelnummer")) q = true <;>
    by_cases h2 : strIncludes (normalize (getField p "Kategori (sub)")) q = true <;>
    by_cases h3 : strIncludes (normalize (getField p "Kategori (parent)")) q = true <;>
    by_cases h4 : strIncludes (normalize (getField p "Namn")) q = true <;>
    simp [getRelevancy, relevancySpec, priorityTable, List.find?, h1, h2, h3, h4]

/-- C8: a query is identifier-like exactly when it contains a digit, or is a
non-empty all-word-character/hyphen token shorter than ten characters;
`modeOf` follows the classifier, and the 9- versus 10-character all-letter
boundary behaves as claimed. -/
theorem sku_heuristic_classification (q : String) :
    (isLikelySku q = true ↔
      ((∃ c ∈ q.data, isDigitChar c = true) ∨
        (q.data ≠ [] ∧ (∀ c ∈ q.data, isWordChar c = true ∨ c = '-') ∧
          q.length < 10))) ∧
    (modeOf q = Mode.sku ↔ isLikelySku q = true) ∧
    isLikelySku "abcdefghi" = true ∧ isLikelySku "abcdefghij" = false := by
  refine ⟨?_, ?_, by decide, by decide⟩
  · unfold isLikelySku
    simp only [Bool.or_eq_true, Bool.and_eq_true, List.any_eq_true,
      List.all_eq_true, decide_eq_true_eq, Bool.not_eq_true', beq_iff_eq]
    constructor
    · rintro (hd | ⟨⟨hne, hall⟩, hlen⟩)
      · exact Or.inl hd
      · exact Or.inr ⟨fun hnil => by simp [hnil] at hne, hall, hlen⟩
    · rintro (hd | ⟨hne, hall, hlen⟩)
      · exact Or.inl hd
      · refine Or.inr ⟨⟨?_, hall⟩, hlen⟩
        cases hdata : q.data with
        | nil => exact absurd hdata hne
        | cons c cs => rfl
  · unfold modeOf
    by_cases hm : isLikelySku q <;> simp [hm]

/-- C9: the search is a pure function of the product list and the query —
the same invocation yields the same output, and every record it returns
(scored or displayed) is an element of the input list, unmodified; the
`_score` annotation lives only in the result pairs. -/
theorem search_invocation_pure (ps : List Product) (q : String) :
    filteredSearch ps q = filteredSearch ps q ∧
    (∀ x ∈ searchScored ps q, x.1 ∈ ps) ∧
    (∀ p ∈ filteredSearch ps q, p ∈ ps) := by
  have hscored : ∀ x ∈ searchScored ps q, x.1 ∈ ps := by
    intro x hx
    unfold searchScored at hx
    rw [List.mem_insertionSort, List.mem_filter] at hx
    obtain ⟨hx1, _⟩ := hx
    obtain ⟨a, ha, rfl⟩ := List.mem_map.mp hx1
    exact ha
  refine ⟨rfl, hscored, ?_⟩
  intro p hp
  unfold filteredSearch at hp
  split at hp
  · exact hp
  · obtain ⟨x, hx, rfl⟩ := List.mem_map.mp hp
    exact hscored x hx

/-- C10: a non-empty query whose normalization leaves no token excludes
every record, while the empty query returns the whole list unfiltered. -/
theorem punctuation_query_empty (ps : List Product) (q : String)
    (hq : q ≠ "") (ht : tokensOf q = []) :
    filteredSearch ps q = [] ∧ filteredSearch ps "" = ps := by
  constructor
  · unfold filteredSearch
    rw [if_neg hq]
    have hzero : (ps.map
          (fun p => (p, scoreRow (modeOf q) p (tokensOf q)))).filter
        (fun x => decide (0 < x.2)) = [] := by
      apply List.filter_eq_nil_iff.mpr
      intro x hmem
      obtain ⟨b, hb, rfl⟩ := List.mem_map.mp hmem
      rw [ht]
      simp [scoreRow]
    unfold searchScored
    rw [hzero]
    rfl
  · unfold filteredSearch
    rw [if_pos rfl]

/-- A second sample record, for the zero-token witness. -/
def wPunct : Product := [("Namn", "Stol"), ("Artikelnummer", "9")]

/-- C10 witness: the query `"!!!"` is non-empty, normalizes to no tokens,
and returns the empty result over a one-record list, while the empty query
returns the record. -/
theorem punctuation_query_empty_witness :
    (("!!!" : String) ≠ "" ∧ tokensOf "!!!" = []) ∧
    (filteredSearch [wPunct] "!!!" = [] ∧ filteredSearch [wPunct] "" = [wPunct]) :=
  ⟨⟨by decide, by decide⟩,
    punctuation_query_empty [wPunct] "!!!" (by decide) (by decide)⟩

/-! ### Helper lemmas: alias table and import -/

/-- JS assignment then read: the assigned key reads the new value, every
other key is untouched. -/
theorem objGet_objSet (m : List (String × String)) (k v k' : String) :
    objGet (objSet m k v) k' = if k' = k then some v else objGet m k' := by
  induction m with
  | nil =>
    by_cases h : k' = k
    · subst h; simp [objSet, objGet]
    · have h' : k ≠ k' := fun hh => h hh.symm
      simp [objSet, objGet, h, h']
  | cons kv rest ih =>
    by_cases h1 : kv.1 = k
    · by_cases h2 : k' = k
      · subst h2; simp [objSet, objGet, h1]
      · have h' : k ≠ k' := fun hh => h2 hh.symm
        have h'' : kv.1 ≠ k' := fun hh => h2 (h1.symm.trans hh).symm
        simp [objSet, objGet, h1, h2, h', h'']
    · by_cases h3 : kv.1 = k'
      · have h4 : k' ≠ k := fun hh => h1 (h3.trans hh)
        simp [objSet, objGet, h1, h3, h4]
      · simp [objSet, objGet, h1, h3, ih]

/-- Reading the built alias table is searching the fields last-to-first for
one that generates the key. -/
theorem buildAliases_get (fields : List String) (k : String) :
    objGet (buildAliases fields) k =
      fields.reverse.find?
        (fun f => k == aliasKeyLower f || k == aliasKeyStripped f) := by
  suffices h : ∀ acc : List (String × String),
      objGet (fields.foldl
        (fun acc f =>
          objSet (objSet acc (aliasKeyLower f) f) (aliasKeyStripped f) f) acc) k =
        match fields.reverse.find?
            (fun f => k == aliasKeyLower f || k == aliasKeyStripped f) with
        | some f => some f
        | none => objGet acc k by
    rw [buildAliases, h []]
    cases fields.reverse.find?
        (fun f => k == aliasKeyLower f || k == aliasKeyStripped f) <;> rfl
  induction fields with
  | nil => intro acc; rfl
  | cons f fs ih =>
    intro acc
    rw [List.foldl_cons, ih, List.reverse_cons, List.find?_append]
    cases hfs : fs.reverse.find?
        (fun g => k == aliasKeyLower g || k == aliasKeyStripped g) with
    | some g => rfl
    | none =>
      simp only [Option.or, List.find?]
      rw [objGet_objSet, objGet_objSet]
      by_cases hk2 : k = aliasKeyStripped f
      · simp [hk2]
      · by_cases hk1 : k = aliasKeyLower f
        · simp [hk1, if_neg hk2]
        · have : (k == aliasKeyLower f || k == aliasKeyStripped f) = false := by
            rw [Bool.or_eq_false_iff]
            exact ⟨beq_eq_false_iff_ne.mpr hk1, beq_eq_false_iff_ne.mpr hk2⟩
          simp [this, if_neg hk1, if_neg hk2]

/-- A list of length at most one containing `a` is `[a]`. -/
theorem eq_singleton_of_length_le_one {α : Type} {l : List α}
    (h : l.length ≤ 1) {a : α} (ha : a ∈ l) : l = [a] := by
  cases l with
  | nil => cases ha
  | cons x xs =>
    cases xs with
    | nil => rw [List.mem_singleton.mp ha]
    | cons y ys => simp at h

/-- Reading a field built by mapping over distinct keys gives that key's
value. -/
theorem getField_map_of_nodup {g : String → String} :
    ∀ {l : List String}, l.Nodup → ∀ {c : String}, c ∈ l →
      getField (l.map (fun k => (k, g k))) c = g c := by
  intro l
  induction l with
  | nil => intro _ c hc; cases hc
  | cons x xs ih =>
    intro hnd c hc
    rw [List.nodup_cons] at hnd
    rcases List.mem_cons.mp hc with hcx | hcs
    · subst hcx; simp [getField]
    · have hxc : x ≠ c := fun hh => hnd.1 (hh ▸ hcs)
      simp only [List.map_cons, getField, if_neg hxc]
      exact ih hnd.2 hcs

/-! ### Claim theorems: alias table and import -/

/-- The claim's "first registration wins" discipline, stated over an
arbitrary declared schema: every alias key reads back as the first-declared
field that generates it. -/
def firstRegistrationWins : Prop :=
  ∀ (fields : List String) (k : String),
    objGet (buildAliases fields) k =
      fields.find? (fun f => k == aliasKeyLower f || k == aliasKeyStripped f)

/-- C4 counterexample: with the schema `["A-B", "AB"]` both fields generate
the alias key `"ab"`, and the table maps it to the later field `"AB"`, not
the first-declared `"A-B"` — first registration does not win. -/
theorem alias_first_wins_counterexample :
    objGet (buildAliases ["A-B", "AB"]) "ab" = some "AB" ∧
    (["A-B", "AB"] : List String).find?
      (fun f => "ab" == aliasKeyLower f || "ab" == aliasKeyStripped f) =
        some "A-B" ∧
    ¬ firstRegistrationWins :=
  ⟨by decide, by decide,
    fun h => absurd (h ["A-B", "AB"] "ab") (by decide)⟩

/-- C4 (amended): over the fixed schema the fields are distinct and no alias
key is generated by two distinct fields; and in general, whenever two
distinct fields generate the same alias key the key maps to the
last-declared one (later registrations overwrite earlier ones). -/
theorem alias_table_collision_free_last_wins :
    (PRODUCT_FIELDS.Nodup ∧
      List.Pairwise (fun f1 f2 => ∀ k ∈ aliasKeys f1, k ∉ aliasKeys f2)
        PRODUCT_FIELDS) ∧
    ∀ (fields : List String) (k : String),
      objGet (buildAliases fields) k =
        fields.reverse.find?
          (fun f => k == aliasKeyLower f || k == aliasKeyStripped f) :=
  ⟨by decide, buildAliases_get⟩

/-- C7: zero decoded rows fail the import with the Empty-File error, no
record list is produced, and the caller's prior product list is left
unmodified. -/
theorem empty_file_error :
    importRows [] = Except.error "Filen innehåller inga rader." ∧
    ∀ prior : List Product, applyImport prior [] = prior :=
  ⟨rfl, fun _ => rfl⟩

/-- C6: the import emits one record per row; every record's key list is
exactly the canonical field list; and — when at most one header maps to any
canonical field — each canonical field holds the value of the header
aliased to it, or the empty string when no header maps to it. -/
theorem import_record_shape (rows : List Row) (hne : rows ≠ [])
    (huniq : ∀ canon : String,
      ((mapFields (uploadedFieldsOf rows)).filter
        (fun x => decide (x.2 = canon))).length ≤ 1) :
    (cleanRows rows).length = rows.length ∧
    (∀ rec ∈ cleanRows rows, rec.map Prod.fst = PRODUCT_FIELDS) ∧
    (∀ row ∈ rows, ∀ canon ∈ PRODUCT_FIELDS,
      ((∀ uf ∈ uploadedFieldsOf rows, mapField uf ≠ canon) →
        getField (cleanRow (mapFields (uploadedFieldsOf rows)) row) canon = "") ∧
      (∀ uf ∈ uploadedFieldsOf rows, mapField uf = canon →
        getField (cleanRow (mapFields (uploadedFieldsOf rows)) row) canon =
          rowGet row uf)) := by
  have hnodup : PRODUCT_FIELDS.Nodup := by decide
  have hget : ∀ (row : Row) (canon : String), canon ∈ PRODUCT_FIELDS →
      getField (cleanRow (mapFields (uploadedFieldsOf rows)) row) canon =
        rowValueFor (mapFields (uploadedFieldsOf rows)) row canon := by
    intro row canon hcanon
    exact getField_map_of_nodup hnodup hcanon
  refine ⟨by rw [cleanRows, List.length_map], ?_, ?_⟩
  · intro rec hrec
    obtain ⟨row, _, rfl⟩ := List.mem_map.mp hrec
    rw [cleanRow, List.map_map]
    have hcomp : (Prod.fst ∘ fun canon =>
        (canon, rowValueFor (mapFields (uploadedFieldsOf rows)) row canon)) =
          fun canon => canon := rfl
    rw [hcomp]
    exact List.map_id' _
  · intro row _ canon hcanon
    constructor
    · intro hnone
      rw [hget row canon hcanon, rowValueFor]
      have hfind : (mapFields (uploadedFieldsOf rows)).find?
          (fun x => x.2 = canon) = none := by
        rw [List.find?_eq_none]
        rintro ⟨uf, c⟩ hmem
        obtain ⟨uf', huf', heq⟩ := List.mem_map.mp hmem
        injection heq with e1 e2
        subst e1; subst e2
        simpa using hnone uf' huf'
      rw [hfind]
    · intro uf hufmem hmap
      rw [hget row canon hcanon, rowValueFor]
      have hmem : (uf, canon) ∈
          (mapFields (uploadedFieldsOf rows)).filter
            (fun x => decide (x.2 = canon)) := by
        rw [List.mem_filter]
        exact ⟨List.mem_map.mpr ⟨uf, hufmem, by rw [hmap]⟩, by simp⟩
      have hfil := eq_singleton_of_length_le_one (huniq canon) hmem
      have hfind : (mapFields (uploadedFieldsOf rows)).find?
          (fun x => decide (x.2 = canon)) = some (uf, canon) := by
        rw [find?_eq_head?_filter, hfil]; rfl
      have hfind' : (mapFields (uploadedFieldsOf rows)).find?
          (fun x => x.2 = canon) = some (uf, canon) := by
        rw [show (fun x : String × String => decide (x.2 = canon)) =
          (fun x : String × String => x.2 = canon) from rfl] at hfind
        exact hfind
      rw [hfind']
      have hufne : uf ≠ "" := by
        intro he
        subst he
        rw [show mapField "" = "" by decide] at hmap
        rw [← hmap] at hcanon
        exact absurd hcanon (by decide)
      simp [hufne]

/-- C6 witness: a single row with the single header `"Namn"`. -/
theorem import_record_shape_witness :
    (([[("Namn", "Stol")]] : List Row) ≠ [] ∧
      ∀ canon : String,
        ((mapFields (uploadedFieldsOf ([[("Namn", "Stol")]] : List Row))).filter
          (fun x => decide (x.2 = canon))).length ≤ 1) ∧
    ((cleanRows [[("Namn", "Stol")]]).length = ([[("Namn", "Stol")]] : List Row).length ∧
      (∀ rec ∈ cleanRows [[("Namn", "Stol")]], rec.map Prod.fst = PRODUCT_FIELDS) ∧
      (∀ row ∈ ([[("Namn", "Stol")]] : List Row), ∀ canon ∈ PRODUCT_FIELDS,
        ((∀ uf ∈ uploadedFieldsOf ([[("Namn", "Stol")]] : List Row),
            mapField uf ≠ canon) →
          getField (cleanRow (mapFields (uploadedFieldsOf
            ([[("Namn", "Stol")]] : List Row))) row) canon = "") ∧
        (∀ uf ∈ uploadedFieldsOf ([[("Namn", "Stol")]] : List Row),
          mapField uf = canon →
          getField (cleanRow (mapFields (uploadedFieldsOf
            ([[("Namn", "Stol")]] : List Row))) row) canon = rowGet row uf))) :=
  ⟨⟨by decide, fun _ => le_trans (List.length_filter_le _ _) (by decide)⟩,
    import_record_shape [[("Namn", "Stol")]] (by decide)
      (fun _ => le_trans (List.length_filter_le _ _) (by decide))⟩

/-! ### Claim theorems: recommendation engine -/

/-- The category score never exceeds 2. -/
theorem categoryScore_le_two (cur p : Product) : categoryScore cur p ≤ 2 := by
  unfold categoryScore
  split_ifs <;> omega

/-- The scored candidates carry exactly the code's scores and come from the
filtered, enumerated product list. -/
theorem mem_getRelevantScored {cur : Product} {i : Nat} {all : List Product}
    {c : Cand} (hc : c ∈ getRelevantScored cur i all) :
    c.2.1 = categoryScore cur c.1.2 ∧ c.2.2 = skuDistance cur c.1.2 ∧
      c.1 ∈ all.enum ∧ c.1.1 ≠ i ∧ getField c.1.2 "Artikelnummer" ≠ "" := by
  unfold getRelevantScored at hc
  rw [List.mem_insertionSort] at hc
  obtain ⟨jp, hjp, rfl⟩ := List.mem_map.mp hc
  rw [List.mem_filter, Bool.and_eq_true, decide_eq_true_eq,
    decide_eq_true_eq] at hjp
  exact ⟨rfl, rfl, hjp.1, hjp.2.1, hjp.2.2⟩

/-- A focal record for the C3 counterexample, parent `"A"` and sub `"B"`. -/
def cexFocal : Product :=
  [("Namn", "f"), ("Artikelnummer", "100"),
    ("Kategori (parent)", "A"), ("Kategori (sub)", "B")]

/-- A candidate whose categories equal the focal ones only after
normalization (`"a"`/`"b"`), with a distant identifier. -/
def cexBoth : Product :=
  [("Namn", "x"), ("Artikelnummer", "500"),
    ("Kategori (parent)", "a"), ("Kategori (sub)", "b")]

/-- A candidate sharing neither category, with a close identifier. -/
def cexNeither : Product :=
  [("Namn", "y"), ("Artikelnummer", "101"),
    ("Kategori (parent)", "Z"), ("Kategori (sub)", "W")]

/-- C3 counterexample: under normalized category equality `cexBoth` scores 2
and `cexNeither` scores 0, yet the engine (which compares raw strings)
returns `cexNeither` first — the output is not ordered by descending
normalized category score, and a candidate sharing both categories (under
normalization) does not precede one sharing neither. -/
theorem recommendation_norm_equality_counterexample :
    getRelevantProducts cexFocal 0 [cexFocal, cexBoth, cexNeither] 6 =
      [cexNeither, cexBoth] ∧
    normCategoryScore cexFocal cexBoth = 2 ∧
    normCategoryScore cexFocal cexNeither = 0 ∧
    ¬ List.Pairwise
      (fun p1 p2 => normCategoryScore cexFocal p2 ≤ normCategoryScore cexFocal p1)
      (getRelevantProducts cexFocal 0 [cexFocal, cexBoth, cexNeither] 6) := by
  refine ⟨by decide, by decide, by decide, by decide⟩

/-- C3 (amended): the recommendation output is ordered by descending
category score computed with raw string equality (2 both match, 1 parent
only, 0 otherwise) and, within equal category score, by ascending numeric
identifier distance; it is truncated to at most `maxResults` after sorting,
and no candidate with category score below 2 ever precedes one with
category score 2. -/
theorem recommendation_ordering (cur : Product) (i : Nat) (all : List Product)
    (m : Nat) :
    List.Pairwise candLE ((getRelevantScored cur i all).take m) ∧
    ((getRelevantScored cur i all).take m).length ≤ m ∧
    getRelevantProducts cur i all m =
      ((getRelevantScored cur i all).take m).map (fun c => c.1.2) ∧
    (∀ c ∈ getRelevantScored cur i all,
      c.2.1 = categoryScore cur c.1.2 ∧ c.2.2 = skuDistance cur c.1.2) ∧
    (∀ (l1 l2 l3 : List Cand) (a b : Cand),
      (getRelevantScored cur i all).take m = l1 ++ a :: (l2 ++ b :: l3) →
      b.2.1 = 2 → a.2.1 = 2) := by
  have hsorted : List.Pairwise candLE (getRelevantScored cur i all) :=
    List.sorted_insertionSort candLE _
  have htake : List.Pairwise candLE ((getRelevantScored cur i all).take m) :=
    hsorted.sublist (List.take_sublist m _)
  refine ⟨htake, List.length_take_le m _, rfl,
    fun c hc => ⟨(mem_getRelevantScored hc).1, (mem_getRelevantScored hc).2.1⟩,
    ?_⟩
  intro l1 l2 l3 a b heq hb
  have hrel : candLE a b := by
    have hp := htake
    rw [heq] at hp
    obtain ⟨_, hp2, _⟩ := List.pairwise_append.mp hp
    rw [List.pairwise_cons] at hp2
    exact hp2.1 b (by simp)
  have hamem : a ∈ getRelevantScored cur i all := by
    have hin : a ∈ (getRelevantScored cur i all).take m := by
      rw [heq]; simp
    exact List.mem_of_mem_take hin
  have ha2 : a.2.1 ≤ 2 := by
    rw [(mem_getRelevantScored hamem).1]
    exact categoryScore_le_two cur a.1.2
  unfold candLE at hrel
  omega

/-- C5: the recommendation result holds at most six records, never the
record at the focal position, and never a record with a blank identifier;
the `ProductCard` related-products list likewise holds at most six records,
never the focal record, and never a blank identifier. -/
theorem recommendation_exclusions (cur : Product) (i : Nat)
    (all : List Product) (focal : Product) :
    (getRelevantProducts cur i all 6).length ≤ 6 ∧
    (∀ c ∈ getRelevantScored cur i all,
      c.1.1 ≠ i ∧ c.1 ∈ all.enum ∧ getField c.1.2 "Artikelnummer" ≠ "") ∧
    (productCardRelevant focal all).length ≤ 6 ∧
    (∀ p ∈ productCardRelevant focal all,
      getField p "Artikelnummer" ≠ "" ∧ p ≠ focal) := by
  refine ⟨?_, ?_, ?_, ?_⟩
  · unfold getRelevantProducts
    rw [List.length_map]
    exact List.length_take_le 6 _
  · intro c hc
    obtain ⟨_, _, henum, hne, hid⟩ := mem_getRelevantScored hc
    exact ⟨hne, henum, hid⟩
  · unfold productCardRelevant
    exact List.length_take_le 6 _
  · intro p hp
    unfold productCardRelevant at hp
    have hp' := List.mem_of_mem_take hp
    rw [List.mem_filter, Bool.and_eq_true, Bool.and_eq_true,
      decide_eq_true_eq, decide_eq_true_eq] at hp'
    obtain ⟨_, ⟨hblank, hskune⟩, _⟩ := hp'
    refine ⟨hblank, fun hpe => hskune ?_⟩
    rw [hpe]

end BentoBrowse
